import Mathlib

/-!
Verification development for the salto adapter corpus.

Shallow embedding of three parts of the code base:
1. the salesforce foreign-key reference filter
   (convertAnnotationsToTypeReferences, convertAnnotationsToFieldReferences,
   and the onFetch hook composing them);
2. the zendesk automation reorder filter (onFetch and deploy);
3. the jira workflow deploy filter (getTransitionsFromService and deploy).

Values, elements and indices are modelled executably; asynchronous iteration
in the original code is modelled as plain list traversal, and in-place
mutation as returning a rewritten copy.
-/

/-- Element identifier, as constructed by new ElemID(adapter, typeName, idType, ...nameParts). -/
structure ElemID where
  adapter : String
  typeName : String
  idType : String
  nameParts : List String
  deriving DecidableEq, Repr

/-- A field annotation value: raw string, structural reference (ReferenceExpression),
number, boolean, or sequence of values. -/
inductive Value where
  | str : String → Value
  | ref : ElemID → Value
  | num : Int → Value
  | boolV : Bool → Value
  | list : List Value → Value

/-- A field of an object type: its annotations object, modelled as a map from
annotation names to optionally defined values (undefined = none). -/
structure Fld where
  annotations : String → Option Value

/-- An object type as seen by the filter. typeKey models metadataType(obj) and
apiNameV models apiName(obj); the two predicates isMetadataObjectType and
isCustomObject (defined in the transformer module, outside this corpus) are
modelled as stored boolean attributes of the element. -/
structure SObj where
  elemID : ElemID
  typeKey : String
  apiNameV : String
  isMetadataObjType : Bool
  isCustomObj : Bool
  fields : List Fld

/-- An element of the fetched element list: an object type, or any other element
(instances etc.), which both passes skip entirely. -/
inductive SElement where
  | objType : SObj → SElement
  | nonObj : ElemID → SElement

/-- isMetadataTypeOrCustomObject from the filter source. -/
def isMetadataTypeOrCustomObject (o : SObj) : Bool :=
  o.isMetadataObjType || o.isCustomObj

/-- The CUSTOM_OBJECT constant. Its concrete value is defined in the constants
module, outside this corpus; only its identity as the metadata-type key of
custom objects matters here, since the index is keyed by the same constant. -/
def CUSTOM_OBJECT : String := "CustomObject"

/-- The multiIndex built by onFetch: a partial map from (metadata type, api name)
pairs to element ids. -/
def TypeIndex : Type := String → String → Option ElemID

/-- resolveTypeReference from convertAnnotationsToTypeReferences: a string value is
looked up in the index first under the pair (ref, ref) and, when that misses,
under (CUSTOM_OBJECT, ref); a hit becomes a reference expression, otherwise the
value is returned unchanged. Non-string values are returned unchanged. -/
def resolveTypeReference (typeToElemID : TypeIndex) : Value → Value
  | Value.str s =>
    match typeToElemID s s with
    | some referenceElemId => Value.ref referenceElemId
    | none =>
      match typeToElemID CUSTOM_OBJECT s with
      | some referenceElemId => Value.ref referenceElemId
      | none => Value.str s
  | v => v

/-- makeArray from the lowerdash collections library: wraps a non-sequence value
in a one-element sequence and leaves a sequence as is. -/
def makeArray : Value → List Value
  | Value.list vs => vs
  | v => [v]

/-- The per-field action of convertAnnotationsToTypeReferences: every defined
annotation among annotationNames is replaced by
makeArray(value).map(resolveTypeReference). -/
def typePassField (typeToElemID : TypeIndex) (annotationNames : List String) (f : Fld) : Fld :=
  ⟨fun n =>
    if n ∈ annotationNames then
      (f.annotations n).map
        (fun v => Value.list ((makeArray v).map (resolveTypeReference typeToElemID)))
    else f.annotations n⟩

/-- The per-element action of convertAnnotationsToTypeReferences: object types
satisfying isMetadataTypeOrCustomObject have all their fields rewritten;
every other element is left unchanged. -/
def convertTypeElem (typeToElemID : TypeIndex) (annotationNames : List String) :
    SElement → SElement
  | SElement.objType o =>
    if isMetadataTypeOrCustomObject o then
      SElement.objType { o with fields := o.fields.map (typePassField typeToElemID annotationNames) }
    else SElement.objType o
  | e => e

/-- convertAnnotationsToTypeReferences from the filter source, modelled as
returning the rewritten element list instead of mutating in place. -/
def convertAnnotationsToTypeReferences (elements : List SElement) (typeToElemID : TypeIndex)
    (annotationNames : List String) : List SElement :=
  elements.map (convertTypeElem typeToElemID annotationNames)

/-- Modelled from the spec: API_NAME_SEPARATOR is the fixed two-part separator of
compound api names; the constants module defining it is outside this corpus. -/
def API_NAME_SEPARATOR : Char := '.'

/-- Splitting a character list at every occurrence of a separator character,
matching the semantics of string.split with a one-character separator. -/
def splitChars (sep : Char) : List Char → List (List Char)
  | [] => [[]]
  | c :: rest =>
    if c = sep then [] :: splitChars sep rest
    else
      match splitChars sep rest with
      | [] => [[c]]
      | g :: gs => (c :: g) :: gs

/-- String splitting on a one-character separator, as used by
convertAnnotationsToFieldReferences for ref.split(API_NAME_SEPARATOR). -/
def splitOnSep (sep : Char) (s : String) : List String :=
  (splitChars sep s.data).map (fun cs => String.mk cs)

/-- resolveFieldReference from convertAnnotationsToFieldReferences: a string value
splitting on the separator into exactly two parts becomes a reference to
new ElemID(salesforce, first, field, second); any other value is returned
unchanged. -/
def resolveFieldReference : Value → Value
  | Value.str s =>
    match splitOnSep API_NAME_SEPARATOR s with
    | [a, b] => Value.ref ⟨"salesforce", a, "field", [b]⟩
    | _ => Value.str s
  | v => v

/-- The per-field action of convertAnnotationsToFieldReferences: every defined
annotation among annotationNames is replaced by resolveFieldReference applied to
the whole annotation value (not element-wise). -/
def fieldPassField (annotationNames : List String) (f : Fld) : Fld :=
  ⟨fun n =>
    if n ∈ annotationNames then (f.annotations n).map resolveFieldReference
    else f.annotations n⟩

/-- The per-element action of convertAnnotationsToFieldReferences. -/
def convertFieldElem (annotationNames : List String) : SElement → SElement
  | SElement.objType o =>
    if isMetadataTypeOrCustomObject o then
      SElement.objType { o with fields := o.fields.map (fieldPassField annotationNames) }
    else SElement.objType o
  | e => e

/-- convertAnnotationsToFieldReferences from the filter source, modelled as
returning the rewritten element list instead of mutating in place. -/
def convertAnnotationsToFieldReferences (elements : List SElement)
    (annotationNames : List String) : List SElement :=
  elements.map (convertFieldElem annotationNames)

/-- The contribution of one element to the multiIndex: a qualifying object type
is keyed by its (metadataType, apiName) pair. -/
def indexEntry (e : SElement) (k a : String) : Option ElemID :=
  match e with
  | SElement.objType o =>
    if isMetadataTypeOrCustomObject o ∧ k = o.typeKey ∧ a = o.apiNameV then some o.elemID
    else none
  | SElement.nonObj _ => none

/-- multiIndex.keyByAsync over the element list: duplicate keys are resolved
last-write-wins, so a later element overrides an earlier one. -/
def buildIndex : List SElement → TypeIndex
  | [] => fun _ _ => none
  | e :: rest => fun k a =>
    match buildIndex rest k a with
    | some x => some x
    | none => indexEntry e k a

/-- The filter's onFetch hook: build the index over the reference element source
and run the type pass then the field pass. Modelled from the spec in one point:
buildElementsSourceForFetch (outside this corpus) provides the fetched elements
plus a broader reference universe, modelled here as elements ++ extraRefs. -/
def onFetchResolve (typeAnnotationNames fieldAnnotationNames : List String)
    (extraRefs elements : List SElement) : List SElement :=
  let typeToElemID := buildIndex (elements ++ extraRefs)
  convertAnnotationsToFieldReferences
    (convertAnnotationsToTypeReferences elements typeToElemID typeAnnotationNames)
    fieldAnnotationNames

/-- Helper: the exhaustive lookup-order case split of resolveTypeReference on a
string value. -/
theorem resolveTypeReference_cases (typeToElemID : TypeIndex) (s : String) :
    (∃ e, typeToElemID s s = some e ∧
        resolveTypeReference typeToElemID (Value.str s) = Value.ref e)
    ∨ (typeToElemID s s = none ∧
        ∃ e, typeToElemID CUSTOM_OBJECT s = some e ∧
          resolveTypeReference typeToElemID (Value.str s) = Value.ref e)
    ∨ (typeToElemID s s = none ∧ typeToElemID CUSTOM_OBJECT s = none ∧
        resolveTypeReference typeToElemID (Value.str s) = Value.str s) := by
  cases h1 : typeToElemID s s with
  | some e => exact Or.inl ⟨e, rfl, by simp [resolveTypeReference, h1]⟩
  | none =>
    cases h2 : typeToElemID CUSTOM_OBJECT s with
    | some e => exact Or.inr (Or.inl ⟨rfl, e, rfl, by simp [resolveTypeReference, h1, h2]⟩)
    | none => exact Or.inr (Or.inr ⟨rfl, rfl, by simp [resolveTypeReference, h1, h2]⟩)

/-- Helper: the image of a qualifying object type under the type pass is in the
output, with the expected rewritten annotations. -/
theorem typePass_mem (typeToElemID : TypeIndex) (annotationNames : List String)
    (elements : List SElement) (o : SObj)
    (ho : SElement.objType o ∈ elements)
    (hq : isMetadataTypeOrCustomObject o = true) :
    SElement.objType { o with fields := o.fields.map (typePassField typeToElemID annotationNames) }
      ∈ convertAnnotationsToTypeReferences elements typeToElemID annotationNames := by
  have := List.mem_map_of_mem (convertTypeElem typeToElemID annotationNames) ho
  simpa [convertAnnotationsToTypeReferences, convertTypeElem, hq] using this

/-- Helper: makeArray wraps every non-sequence value in a one-element sequence. -/
theorem makeArray_of_not_list (v : Value) (h : ∀ vs, v ≠ Value.list vs) :
    makeArray v = [v] := by
  cases v with
  | str s => rfl
  | ref e => rfl
  | num i => rfl
  | boolV b => rfl
  | list vs => exact absurd rfl (h vs)

/-- Claim C1: in the type/foreign-key pass, every listed annotation value is
rewritten by mapping resolveTypeReference over its elements, and for a string
value the resolution first looks the index up under the pair given by the value
itself (the declared metadata-type kind), falls back to the generic
CUSTOM_OBJECT kind, rewrites the first hit to a structural reference, and
leaves the string untouched when both lookups miss, raising no error. -/
theorem claim1_type_reference_lookup_order
    (typeToElemID : TypeIndex) (annotationNames : List String)
    (elements : List SElement) (o : SObj) (f : Fld) (n : String) (v : Value)
    (ho : SElement.objType o ∈ elements)
    (hq : isMetadataTypeOrCustomObject o = true)
    (hf : f ∈ o.fields) (hn : n ∈ annotationNames)
    (hv : f.annotations n = some v) :
    ∃ o', SElement.objType o'
        ∈ convertAnnotationsToTypeReferences elements typeToElemID annotationNames
      ∧ o'.elemID = o.elemID
      ∧ ∃ f', f' ∈ o'.fields
        ∧ f'.annotations n
            = some (Value.list ((makeArray v).map (resolveTypeReference typeToElemID)))
        ∧ ∀ s : String,
            (∃ e, typeToElemID s s = some e ∧
                resolveTypeReference typeToElemID (Value.str s) = Value.ref e)
            ∨ (typeToElemID s s = none ∧
                ∃ e, typeToElemID CUSTOM_OBJECT s = some e ∧
                  resolveTypeReference typeToElemID (Value.str s) = Value.ref e)
            ∨ (typeToElemID s s = none ∧ typeToElemID CUSTOM_OBJECT s = none ∧
                resolveTypeReference typeToElemID (Value.str s) = Value.str s) := by
  refine ⟨{ o with fields := o.fields.map (typePassField typeToElemID annotationNames) },
    typePass_mem typeToElemID annotationNames elements o ho hq, rfl,
    typePassField typeToElemID annotationNames f, List.mem_map_of_mem _ hf, ?_, ?_⟩
  · show (if n ∈ annotationNames then _ else _) = _
    rw [if_pos hn, hv]
    rfl
  · intro s
    exact resolveTypeReference_cases typeToElemID s

/-- Concrete index for witnesses: one metadata type named Flow and one custom
object named Obj. -/
def demoIndex : TypeIndex := fun k a =>
  if k = "Flow" ∧ a = "Flow" then some ⟨"salesforce", "Flow", "", []⟩
  else if k = CUSTOM_OBJECT ∧ a = "Obj" then some ⟨"salesforce", "Obj", "", []⟩
  else none

/-- Concrete field for the claim C1 witness. -/
def demoFld : Fld := ⟨fun n => if n = "referenceTo" then some (Value.str "Flow") else none⟩

/-- Concrete metadata object type for the claim C1 witness. -/
def demoObj : SObj := ⟨⟨"salesforce", "T", "", []⟩, "T", "T", true, false, [demoFld]⟩

/-- Witness for claim C1, at a concrete element list, index and annotation. -/
theorem claim1_witness :
    ∃ o', SElement.objType o'
        ∈ convertAnnotationsToTypeReferences [SElement.objType demoObj] demoIndex ["referenceTo"]
      ∧ o'.elemID = demoObj.elemID
      ∧ ∃ f', f' ∈ o'.fields
        ∧ f'.annotations "referenceTo"
            = some (Value.list ((makeArray (Value.str "Flow")).map (resolveTypeReference demoIndex)))
        ∧ ∀ s : String,
            (∃ e, demoIndex s s = some e ∧
                resolveTypeReference demoIndex (Value.str s) = Value.ref e)
            ∨ (demoIndex s s = none ∧
                ∃ e, demoIndex CUSTOM_OBJECT s = some e ∧
                  resolveTypeReference demoIndex (Value.str s) = Value.ref e)
            ∨ (demoIndex s s = none ∧ demoIndex CUSTOM_OBJECT s = none ∧
                resolveTypeReference demoIndex (Value.str s) = Value.str s) :=
  claim1_type_reference_lookup_order demoIndex ["referenceTo"] [SElement.objType demoObj]
    demoObj demoFld "referenceTo" (Value.str "Flow")
    (by simp) rfl (by simp [demoObj]) (by simp) rfl

/-- Claim C10: after the type pass, every processed annotation holds a sequence;
a scalar value becomes a one-element sequence even when nothing resolves, and an
unresolved scalar string in particular becomes the singleton sequence holding
the original string. -/
theorem claim10_type_pass_wraps_scalars
    (typeToElemID : TypeIndex) (annotationNames : List String)
    (elements : List SElement) (o : SObj) (f : Fld) (n : String) (v : Value)
    (ho : SElement.objType o ∈ elements)
    (hq : isMetadataTypeOrCustomObject o = true)
    (hf : f ∈ o.fields) (hn : n ∈ annotationNames)
    (hv : f.annotations n = some v) :
    ∃ o', SElement.objType o'
        ∈ convertAnnotationsToTypeReferences elements typeToElemID annotationNames
      ∧ o'.elemID = o.elemID
      ∧ ∃ f', f' ∈ o'.fields
        ∧ ∃ l, f'.annotations n = some (Value.list l)
          ∧ ((∀ vs, v ≠ Value.list vs) → l = [resolveTypeReference typeToElemID v])
          ∧ (∀ s, v = Value.str s → typeToElemID s s = none →
              typeToElemID CUSTOM_OBJECT s = none → l = [Value.str s]) := by
  refine ⟨{ o with fields := o.fields.map (typePassField typeToElemID annotationNames) },
    typePass_mem typeToElemID annotationNames elements o ho hq, rfl,
    typePassField typeToElemID annotationNames f, List.mem_map_of_mem _ hf,
    (makeArray v).map (resolveTypeReference typeToElemID), ?_, ?_, ?_⟩
  · show (if n ∈ annotationNames then _ else _) = _
    rw [if_pos hn, hv]
    rfl
  · intro h
    rw [makeArray_of_not_list v h]
    rfl
  · intro s hs h1 h2
    subst hs
    simp [makeArray, resolveTypeReference, h1, h2]

/-- Concrete field for the claim C10 witness: an annotation string resolved by
neither index lookup. -/
def demoFld10 : Fld :=
  ⟨fun n => if n = "foreignKeyDomain" then some (Value.str "Missing") else none⟩

/-- Concrete metadata object type for the claim C10 witness. -/
def demoObj10 : SObj := ⟨⟨"salesforce", "U", "", []⟩, "U", "U", true, false, [demoFld10]⟩

/-- Witness for claim C10, at a concrete element list and an empty index. -/
theorem claim10_witness :
    ∃ o', SElement.objType o'
        ∈ convertAnnotationsToTypeReferences [SElement.objType demoObj10]
            (fun _ _ => none) ["foreignKeyDomain"]
      ∧ o'.elemID = demoObj10.elemID
      ∧ ∃ f', f' ∈ o'.fields
        ∧ ∃ l, f'.annotations "foreignKeyDomain" = some (Value.list l)
          ∧ ((∀ vs, Value.str "Missing" ≠ Value.list vs) →
              l = [resolveTypeReference (fun _ _ => none) (Value.str "Missing")])
          ∧ (∀ s, Value.str "Missing" = Value.str s → (none : Option ElemID) = none →
              (none : Option ElemID) = none → l = [Value.str s]) :=
  claim10_type_pass_wraps_scalars (fun _ _ => none) ["foreignKeyDomain"]
    [SElement.objType demoObj10] demoObj10 demoFld10 "foreignKeyDomain" (Value.str "Missing")
    (by simp) rfl (by simp [demoObj10]) (by simp) rfl

/-- Helper: the image of a qualifying object type under the field pass is in the
output, with the expected rewritten annotations. -/
theorem fieldPass_mem (annotationNames : List String)
    (elements : List SElement) (o : SObj)
    (ho : SElement.objType o ∈ elements)
    (hq : isMetadataTypeOrCustomObject o = true) :
    SElement.objType { o with fields := o.fields.map (fieldPassField annotationNames) }
      ∈ convertAnnotationsToFieldReferences elements annotationNames := by
  have := List.mem_map_of_mem (convertFieldElem annotationNames) ho
  simpa [convertAnnotationsToFieldReferences, convertFieldElem, hq] using this

/-- Concrete field for the claim C2 counterexample: a sequence-valued annotation
whose single element is a compound name that would resolve element-wise. -/
def demoFld2 : Fld :=
  ⟨fun n => if n = "summarizedField" then some (Value.list [Value.str "A.B"]) else none⟩

/-- Concrete metadata object type for the claim C2 counterexample. -/
def demoObj2 : SObj := ⟨⟨"salesforce", "V", "", []⟩, "V", "V", true, false, [demoFld2]⟩

/-- Counterexample to claim C2: the field/compound-key pass does not rewrite a
sequence-valued annotation element-wise. At the concrete input, the annotation
value stays the sequence holding the raw string, while element-wise rewriting
would have produced the sequence holding the structural reference, and the two
differ. -/
theorem claim2_counterexample :
    ∃ o', convertAnnotationsToFieldReferences [SElement.objType demoObj2] ["summarizedField"]
        = [SElement.objType o']
      ∧ ∃ f', o'.fields = [f']
        ∧ f'.annotations "summarizedField" = some (Value.list [Value.str "A.B"])
        ∧ resolveFieldReference (Value.str "A.B")
            = Value.ref ⟨"salesforce", "A", "field", ["B"]⟩
        ∧ Value.list [Value.str "A.B"]
            ≠ Value.list [resolveFieldReference (Value.str "A.B")] := by
  refine ⟨{ demoObj2 with fields := [fieldPassField ["summarizedField"] demoFld2] }, ?_,
    fieldPassField ["summarizedField"] demoFld2, rfl, rfl, rfl, ?_⟩
  · show List.map _ _ = _
    rfl
  · intro h
    rw [show resolveFieldReference (Value.str "A.B")
          = Value.ref ⟨"salesforce", "A", "field", ["B"]⟩ from rfl] at h
    have h2 := congrArg (fun v => match v with
      | Value.list (Value.str _ :: _) => true
      | _ => false) h
    simp at h2

/-- Claim C2 as amended: in the field/compound-key pass, each processed
annotation value is replaced by resolveFieldReference applied to the whole
value; a scalar string splitting into exactly two parts becomes a structural
reference built from the two parts, a scalar string not splitting into two
parts is left unchanged, and a sequence-valued annotation is left entirely
unchanged (it is not rewritten element-wise). -/
theorem claim2_amended_field_reference_pass
    (annotationNames : List String) (elements : List SElement)
    (o : SObj) (f : Fld) (n : String) (v : Value)
    (ho : SElement.objType o ∈ elements)
    (hq : isMetadataTypeOrCustomObject o = true)
    (hf : f ∈ o.fields) (hn : n ∈ annotationNames)
    (hv : f.annotations n = some v) :
    ∃ o', SElement.objType o'
        ∈ convertAnnotationsToFieldReferences elements annotationNames
      ∧ o'.elemID = o.elemID
      ∧ ∃ f', f' ∈ o'.fields
        ∧ f'.annotations n = some (resolveFieldReference v)
        ∧ (∀ s a b, v = Value.str s → splitOnSep API_NAME_SEPARATOR s = [a, b] →
            resolveFieldReference v = Value.ref ⟨"salesforce", a, "field", [b]⟩)
        ∧ (∀ s, v = Value.str s → (splitOnSep API_NAME_SEPARATOR s).length ≠ 2 →
            resolveFieldReference v = v)
        ∧ (∀ vs, v = Value.list vs → resolveFieldReference v = v) := by
  refine ⟨{ o with fields := o.fields.map (fieldPassField annotationNames) },
    fieldPass_mem annotationNames elements o ho hq, rfl,
    fieldPassField annotationNames f, List.mem_map_of_mem _ hf, ?_, ?_, ?_, ?_⟩
  · show (if n ∈ annotationNames then _ else _) = _
    rw [if_pos hn, hv]
    rfl
  · intro s a b hs hsplit
    subst hs
    simp [resolveFieldReference, hsplit]
  · intro s hs hlen
    subst hs
    show (match splitOnSep API_NAME_SEPARATOR s with
      | [a, b] => Value.ref ⟨"salesforce", a, "field", [b]⟩
      | _ => Value.str s) = Value.str s
    rcases hsp : splitOnSep API_NAME_SEPARATOR s with _ | ⟨a, _ | ⟨b, _ | ⟨c, rest⟩⟩⟩
    · rfl
    · rfl
    · exact absurd (by rw [hsp]; rfl) hlen
    · rfl
  · intro vs hs
    subst hs
    rfl

/-- Concrete field for the claim C2 amended witness: a scalar compound string. -/
def demoFld2b : Fld :=
  ⟨fun n => if n = "summaryForeignKey" then some (Value.str "A.B") else none⟩

/-- Concrete metadata object type for the claim C2 amended witness. -/
def demoObj2b : SObj := ⟨⟨"salesforce", "W", "", []⟩, "W", "W", true, false, [demoFld2b]⟩

/-- Witness for the amended claim C2, at a concrete element list and annotation. -/
theorem claim2_witness :
    ∃ o', SElement.objType o'
        ∈ convertAnnotationsToFieldReferences [SElement.objType demoObj2b] ["summaryForeignKey"]
      ∧ o'.elemID = demoObj2b.elemID
      ∧ ∃ f', f' ∈ o'.fields
        ∧ f'.annotations "summaryForeignKey" = some (resolveFieldReference (Value.str "A.B"))
        ∧ (∀ s a b, Value.str "A.B" = Value.str s → splitOnSep API_NAME_SEPARATOR s = [a, b] →
            resolveFieldReference (Value.str "A.B")
              = Value.ref ⟨"salesforce", a, "field", [b]⟩)
        ∧ (∀ s, Value.str "A.B" = Value.str s →
            (splitOnSep API_NAME_SEPARATOR s).length ≠ 2 →
            resolveFieldReference (Value.str "A.B") = Value.str "A.B")
        ∧ (∀ vs, Value.str "A.B" = Value.list vs →
            resolveFieldReference (Value.str "A.B") = Value.str "A.B") :=
  claim2_amended_field_reference_pass ["summaryForeignKey"] [SElement.objType demoObj2b]
    demoObj2b demoFld2b "summaryForeignKey" (Value.str "A.B")
    (by simp) rfl (by simp [demoObj2b]) (by simp) rfl

/-- Helper: resolveTypeReference is idempotent on values; a resolved reference is
no longer a string and an unresolved string resolves to itself again. -/
theorem resolveTypeReference_idem (typeToElemID : TypeIndex) (v : Value) :
    resolveTypeReference typeToElemID (resolveTypeReference typeToElemID v)
      = resolveTypeReference typeToElemID v := by
  cases v with
  | str s =>
    cases h1 : typeToElemID s s with
    | some e => simp [resolveTypeReference, h1]
    | none =>
      cases h2 : typeToElemID CUSTOM_OBJECT s with
      | some e => simp [resolveTypeReference, h1, h2]
      | none => simp [resolveTypeReference, h1, h2]
  | ref e => rfl
  | num i => rfl
  | boolV b => rfl
  | list vs => rfl

/-- Helper: mapping resolveTypeReference twice over a list equals mapping it once. -/
theorem map_resolveTypeReference_idem (typeToElemID : TypeIndex) (l : List Value) :
    (l.map (resolveTypeReference typeToElemID)).map (resolveTypeReference typeToElemID)
      = l.map (resolveTypeReference typeToElemID) := by
  rw [List.map_map]
  have h : resolveTypeReference typeToElemID ∘ resolveTypeReference typeToElemID
      = resolveTypeReference typeToElemID :=
    funext (fun v => resolveTypeReference_idem typeToElemID v)
  rw [h]

/-- Helper: the value rewrite of the type pass is idempotent. -/
theorem typePassValue_idem (typeToElemID : TypeIndex) (v : Value) :
    Value.list ((makeArray (Value.list ((makeArray v).map
        (resolveTypeReference typeToElemID)))).map (resolveTypeReference typeToElemID))
      = Value.list ((makeArray v).map (resolveTypeReference typeToElemID)) := by
  show Value.list (((makeArray v).map (resolveTypeReference typeToElemID)).map
      (resolveTypeReference typeToElemID)) = _
  rw [map_resolveTypeReference_idem]

/-- Helper: resolveFieldReference leaves sequences unchanged. -/
theorem resolveFieldReference_list (l : List Value) :
    resolveFieldReference (Value.list l) = Value.list l := rfl

/-- Helper: resolveFieldReference is idempotent on values. -/
theorem resolveFieldReference_idem (v : Value) :
    resolveFieldReference (resolveFieldReference v) = resolveFieldReference v := by
  cases v with
  | str s =>
    rcases hsp : splitOnSep API_NAME_SEPARATOR s with _ | ⟨a, _ | ⟨b, _ | ⟨c, rest⟩⟩⟩ <;>
      simp [resolveFieldReference, hsp]
  | ref e => rfl
  | num i => rfl
  | boolV b => rfl
  | list vs => rfl

/-- Helper: the composite per-field rewrite (type pass then field pass) is
idempotent. -/
theorem passField_idem (typeToElemID : TypeIndex) (tN fN : List String) (f : Fld) :
    fieldPassField fN (typePassField typeToElemID tN
        (fieldPassField fN (typePassField typeToElemID tN f)))
      = fieldPassField fN (typePassField typeToElemID tN f) := by
  refine congrArg Fld.mk (funext fun n => ?_)
  by_cases ht : n ∈ tN <;> by_cases hfn : n ∈ fN <;>
      simp only [typePassField, fieldPassField, if_pos, if_neg, ht, hfn, if_true, if_false,
        ite_true, ite_false] <;>
    cases hA : f.annotations n with
  | _ =>
    first
    | rfl
    | (simp only [Option.map_some, Option.map_none, Option.map_map]
       first
       | rfl
       | (show some _ = some _
          refine congrArg some ?_
          first
          | rfl
          | simp only [Function.comp_apply, resolveFieldReference_list,
              typePassValue_idem, resolveFieldReference_idem]))

/-- Helper: the unfolding of convertTypeElem on an object type element. -/
theorem convertTypeElem_objType (typeToElemID : TypeIndex) (tN : List String) (o : SObj) :
    convertTypeElem typeToElemID tN (SElement.objType o)
      = if isMetadataTypeOrCustomObject o then
          SElement.objType { o with fields := o.fields.map (typePassField typeToElemID tN) }
        else SElement.objType o := rfl

/-- Helper: the unfolding of convertFieldElem on an object type element. -/
theorem convertFieldElem_objType (fN : List String) (o : SObj) :
    convertFieldElem fN (SElement.objType o)
      = if isMetadataTypeOrCustomObject o then
          SElement.objType { o with fields := o.fields.map (fieldPassField fN) }
        else SElement.objType o := rfl

/-- Helper: replacing the fields of an object type does not change whether it
qualifies for the passes. -/
theorem qualify_update (o : SObj) (x : List Fld) :
    isMetadataTypeOrCustomObject { o with fields := x } = isMetadataTypeOrCustomObject o := rfl

/-- Helper: the composite per-element rewrite (type pass then field pass) is
idempotent, since the rewrite never changes the qualifying predicate of an
element and the per-field rewrite is idempotent. -/
theorem passElem_idem (typeToElemID : TypeIndex) (tN fN : List String) (e : SElement) :
    convertFieldElem fN (convertTypeElem typeToElemID tN
        (convertFieldElem fN (convertTypeElem typeToElemID tN e)))
      = convertFieldElem fN (convertTypeElem typeToElemID tN e) := by
  cases e with
  | nonObj i => rfl
  | objType o =>
    by_cases hq : isMetadataTypeOrCustomObject o
    · simp only [convertTypeElem_objType, convertFieldElem_objType, qualify_update, hq,
        ite_true]
      refine congrArg SElement.objType (congrArg (fun fl => { o with fields := fl }) ?_)
      simp only [List.map_map]
      refine List.map_congr_left (fun f _ => ?_)
      simp only [Function.comp_apply]
      exact passField_idem typeToElemID tN fN f
    · simp only [convertTypeElem_objType, convertFieldElem_objType, qualify_update, hq,
        Bool.false_eq_true, ite_false]

/-- The key data of an element that the index build depends on: whether it
qualifies, its metadata type, its api name, and its element id. -/
def elemKeyData : SElement → Option (Bool × String × String × ElemID)
  | SElement.objType o =>
    some (isMetadataTypeOrCustomObject o, o.typeKey, o.apiNameV, o.elemID)
  | SElement.nonObj _ => none

/-- Helper: two elements with equal key data make equal index contributions. -/
theorem indexEntry_congr (e₁ e₂ : SElement) (h : elemKeyData e₁ = elemKeyData e₂)
    (k a : String) : indexEntry e₁ k a = indexEntry e₂ k a := by
  cases e₁ with
  | nonObj i =>
    cases e₂ with
    | nonObj j => rfl
    | objType o => exact absurd h.symm (by simp [elemKeyData])
  | objType o =>
    cases e₂ with
    | nonObj j => exact absurd h (by simp [elemKeyData])
    | objType p =>
      simp only [elemKeyData, Option.some.injEq, Prod.mk.injEq] at h
      obtain ⟨hq, ht, ha, hid⟩ := h
      simp only [indexEntry, hq, ht, ha, hid]

/-- Helper: both rewrite passes preserve the key data of every element. -/
theorem keyData_preserved (typeToElemID : TypeIndex) (tN fN : List String) (e : SElement) :
    elemKeyData (convertFieldElem fN (convertTypeElem typeToElemID tN e)) = elemKeyData e := by
  cases e with
  | nonObj i => rfl
  | objType o =>
    by_cases hq : isMetadataTypeOrCustomObject o
    · simp only [convertTypeElem_objType, convertFieldElem_objType, qualify_update, hq,
        ite_true, elemKeyData]
    · simp only [convertTypeElem_objType, convertFieldElem_objType, qualify_update, hq,
        Bool.false_eq_true, ite_false]

/-- Helper: rewriting the fetched elements with a key-data-preserving function
leaves the built index unchanged. -/
theorem buildIndex_map (g : SElement → SElement)
    (hg : ∀ e, elemKeyData (g e) = elemKeyData e) (l extra : List SElement) :
    buildIndex (l.map g ++ extra) = buildIndex (l ++ extra) := by
  induction l with
  | nil => rfl
  | cons e l ih =>
    funext k a
    show (match buildIndex (l.map g ++ extra) k a with
      | some x => some x
      | none => indexEntry (g e) k a)
      = (match buildIndex (l ++ extra) k a with
      | some x => some x
      | none => indexEntry e k a)
    rw [ih]
    cases buildIndex (l ++ extra) k a with
    | some x => rfl
    | none => exact indexEntry_congr (g e) e (hg e) k a

/-- Claim C3: the full resolution pass of the filter onFetch hook, index build
plus type pass plus field pass, is idempotent: running it twice over a record
set gives exactly the running of it once. -/
theorem claim3_resolver_idempotent (tN fN : List String) (extraRefs elements : List SElement) :
    onFetchResolve tN fN extraRefs (onFetchResolve tN fN extraRefs elements)
      = onFetchResolve tN fN extraRefs elements := by
  show convertAnnotationsToFieldReferences
      (convertAnnotationsToTypeReferences (onFetchResolve tN fN extraRefs elements)
        (buildIndex (onFetchResolve tN fN extraRefs elements ++ extraRefs)) tN) fN
    = onFetchResolve tN fN extraRefs elements
  have hrun : onFetchResolve tN fN extraRefs elements
      = elements.map (convertFieldElem fN ∘
          convertTypeElem (buildIndex (elements ++ extraRefs)) tN) := by
    show convertAnnotationsToFieldReferences
        (convertAnnotationsToTypeReferences elements (buildIndex (elements ++ extraRefs)) tN) fN
      = _
    simp only [convertAnnotationsToFieldReferences, convertAnnotationsToTypeReferences,
      List.map_map]
  have hidx : buildIndex (onFetchResolve tN fN extraRefs elements ++ extraRefs)
      = buildIndex (elements ++ extraRefs) := by
    rw [hrun]
    exact buildIndex_map _
      (fun e => keyData_preserved (buildIndex (elements ++ extraRefs)) tN fN e)
      elements extraRefs
  rw [hidx, hrun]
  simp only [convertAnnotationsToFieldReferences, convertAnnotationsToTypeReferences,
    List.map_map]
  refine List.map_congr_left (fun e _ => ?_)
  exact passElem_idem (buildIndex (elements ++ extraRefs)) tN fN e

/-- An automation instance of the zendesk adapter, with the attributes the
reorder filter reads: its element name, numeric id, position, and title. -/
structure Automation where
  name : String
  id : Int
  position : Nat
  title : String
  deriving DecidableEq, Repr

/-- An element of the zendesk fetch result as seen by the reorder filter: the
automation object type, an automation instance, the synthetic order type with
an optional hidden core annotations entry, or the synthetic order instance with
its ordered member references. -/
inductive ZElement where
  | automationType : ZElement
  | automationInst : Automation → ZElement
  | orderType : Option Bool → ZElement
  | orderInst : List String → ZElement
  deriving DecidableEq, Repr

/-- The automation instances of an element list. -/
def automationInsts (elements : List ZElement) : List Automation :=
  elements.filterMap fun e =>
    match e with
    | ZElement.automationInst a => some a
    | _ => none

/-- The sort order of the synthetic order sequence: by position, ties broken by
title. -/
def autLE (a b : Automation) : Prop :=
  a.position < b.position ∨ (a.position = b.position ∧ a.title ≤ b.title)

instance : DecidableRel autLE := fun a b => by
  unfold autLE
  infer_instance

instance : IsTotal Automation autLE where
  total a b := by
    rcases Nat.lt_trichotomy a.position b.position with h | h | h
    · exact Or.inl (Or.inl h)
    · rcases le_total a.title b.title with ht | ht
      · exact Or.inl (Or.inr ⟨h, ht⟩)
      · exact Or.inr (Or.inr ⟨h.symm, ht⟩)
    · exact Or.inr (Or.inl h)

instance : IsTrans Automation autLE where
  trans a b c hab hbc := by
    rcases hab with h1 | ⟨h1, t1⟩
    · rcases hbc with h2 | ⟨h2, t2⟩
      · exact Or.inl (h1.trans h2)
      · exact Or.inl (h2 ▸ h1)
    · rcases hbc with h2 | ⟨h2, t2⟩
      · exact Or.inl (h1 ▸ h2)
      · exact Or.inr ⟨h1.trans h2, t1.trans t2⟩

/-- Modelled from the spec: the reorder filter onFetch hook (the filter module
itself is outside this corpus; its test is part_001). It reads the member
instances, sorts them by position with ties broken by title, and, when any
member exists, appends the synthetic order type (carrying the hidden core
annotations entry unless the adapter configuration disables hiding, in which
case the entry is absent) and the single synthetic order instance referencing
the members in sorted order. With no member instances it creates nothing. -/
def reorderOnFetch (hideTypes : Bool) (elements : List ZElement) : List ZElement :=
  let insts := automationInsts elements
  if insts.isEmpty then elements
  else
    elements ++
      [ZElement.orderType (if hideTypes then some true else none),
       ZElement.orderInst ((List.insertionSort autLE insts).map Automation.name)]

/-- A member key of the order sequence at deploy time: a number or a string. -/
inductive MKey where
  | numK : Int → MKey
  | strK : String → MKey
  deriving DecidableEq, Repr

/-- The order instance at deploy time: the value of its order field. -/
structure OrderInst where
  order : List MKey
  deriving DecidableEq, Repr

/-- A change given to the reorder filter deploy hook. -/
inductive RChange where
  | addition : OrderInst → RChange
  | modification : OrderInst → OrderInst → RChange
  | removal : OrderInst → RChange
  deriving DecidableEq, Repr

/-- One id/position pair of the rendered reorder payload. -/
structure PayloadEntry where
  id : Int
  position : Nat
  deriving DecidableEq, Repr

/-- The single batched reorder request: the payload envelope field and the
ordered id/position pairs. -/
structure ReorderRequest where
  envelopeField : String
  entries : List PayloadEntry
  deriving DecidableEq, Repr

/-- The outcome of the reorder filter deploy hook: errors, applied changes, and
underlying requests issued. -/
structure ReorderDeployResult where
  errors : List String
  appliedChanges : List RChange
  requests : List ReorderRequest
  deriving DecidableEq, Repr

/-- All member keys parsed as the expected numeric identifiers, or none when
some key is not numeric. -/
def intKeys : List MKey → Option (List Int)
  | [] => some []
  | MKey.numK n :: rest => (intKeys rest).map (fun l => n :: l)
  | MKey.strK _ :: _ => none

/-- Whether a batch is exactly one Modification change. -/
def isSingleModification : List RChange → Bool
  | [RChange.modification _ _] => true
  | _ => false

/-- Modelled from the spec: the reorder filter deploy hook (the filter module
itself is outside this corpus; its test is part_001). A batch that is not
exactly one Modification yields one InvalidOrderChangeBatch error and nothing
is deployed; a member key of the after sequence that does not parse as the
numeric identifier yields one InvalidMemberIdentifier error and nothing is
deployed; otherwise a single request is issued whose payload lists the after
sequence ids with positions renumbered densely from 1, and the change is
applied. -/
def reorderDeploy (changes : List RChange) : ReorderDeployResult :=
  match changes with
  | [RChange.modification before after] =>
    match intKeys after.order with
    | some ids =>
      { errors := [],
        appliedChanges := [RChange.modification before after],
        requests := [⟨"automations", ids.enum.map (fun p => ⟨p.2, p.1 + 1⟩)⟩] }
    | none =>
      { errors := ["InvalidMemberIdentifier"], appliedChanges := [], requests := [] }
  | _ =>
    { errors := ["InvalidOrderChangeBatch"], appliedChanges := [], requests := [] }

/-- Claim C4: deploying the single Modification with before order 11,22,33 and
after order 22,33,11 issues exactly one request whose payload is exactly the
pairs (22,1),(33,2),(11,3), densely renumbered from 1 in after order, and
applies the change with no error. -/
theorem claim4_reorder_payload_concrete :
    reorderDeploy [RChange.modification ⟨[MKey.numK 11, MKey.numK 22, MKey.numK 33]⟩
        ⟨[MKey.numK 22, MKey.numK 33, MKey.numK 11]⟩]
      = { errors := [],
          appliedChanges := [RChange.modification ⟨[MKey.numK 11, MKey.numK 22, MKey.numK 33]⟩
            ⟨[MKey.numK 22, MKey.numK 33, MKey.numK 11]⟩],
          requests := [⟨"automations", [⟨22, 1⟩, ⟨33, 2⟩, ⟨11, 3⟩]⟩] } := by
  decide

/-- Claim C5: a batch that is not exactly one Modification change yields exactly
one error, zero applied changes and zero issued requests. -/
theorem claim5_invalid_batch_shape (changes : List RChange)
    (h : isSingleModification changes = false) :
    (reorderDeploy changes).errors.length = 1
    ∧ (reorderDeploy changes).appliedChanges = []
    ∧ (reorderDeploy changes).requests = [] := by
  cases changes with
  | nil => exact ⟨rfl, rfl, rfl⟩
  | cons c rest =>
    cases rest with
    | cons c2 rest2 => cases c <;> exact ⟨rfl, rfl, rfl⟩
    | nil =>
      cases c with
      | modification before after => exact absurd h (by simp [isSingleModification])
      | addition after => exact ⟨rfl, rfl, rfl⟩
      | removal before => exact ⟨rfl, rfl, rfl⟩

/-- Concrete change for the claim C5 witness. -/
def demoChange : RChange := RChange.modification ⟨[MKey.numK 11]⟩ ⟨[MKey.numK 22]⟩

/-- Witness for claim C5: a batch of two order changes. -/
theorem claim5_witness :
    isSingleModification [demoChange, demoChange] = false
    ∧ (reorderDeploy [demoChange, demoChange]).errors.length = 1
    ∧ (reorderDeploy [demoChange, demoChange]).appliedChanges = []
    ∧ (reorderDeploy [demoChange, demoChange]).requests = [] :=
  ⟨by decide, claim5_invalid_batch_shape [demoChange, demoChange] (by decide)⟩

/-- Whether a member key is the expected numeric identifier. -/
def isIntK : MKey → Bool
  | MKey.numK _ => true
  | MKey.strK _ => false

/-- Helper: when some member key is not numeric, parsing the key list fails. -/
theorem intKeys_eq_none (l : List MKey) (h : l.all isIntK = false) : intKeys l = none := by
  induction l with
  | nil => simp [List.all_nil] at h
  | cons k rest ih =>
    cases k with
    | strK s => rfl
    | numK n =>
      simp only [List.all_cons, isIntK, Bool.true_and] at h
      show (intKeys rest).map (fun l => n :: l) = none
      rw [ih h]
      rfl

/-- Claim C6: a single Modification whose after sequence holds a member key that
does not parse as the numeric identifier yields exactly one error, zero applied
changes and zero issued requests. -/
theorem claim6_invalid_member_identifier (before after : OrderInst)
    (h : after.order.all isIntK = false) :
    (reorderDeploy [RChange.modification before after]).errors.length = 1
    ∧ (reorderDeploy [RChange.modification before after]).appliedChanges = []
    ∧ (reorderDeploy [RChange.modification before after]).requests = [] := by
  have hk := intKeys_eq_none after.order h
  simp [reorderDeploy, hk]

/-- Witness for claim C6: an after sequence of numeric strings, which the
expected identifier type rejects. -/
theorem claim6_witness :
    (⟨[MKey.strK "22", MKey.strK "33"]⟩ : OrderInst).order.all isIntK = false
    ∧ (reorderDeploy [RChange.modification ⟨[MKey.numK 11]⟩
        ⟨[MKey.strK "22", MKey.strK "33"]⟩]).errors.length = 1
    ∧ (reorderDeploy [RChange.modification ⟨[MKey.numK 11]⟩
        ⟨[MKey.strK "22", MKey.strK "33"]⟩]).appliedChanges = []
    ∧ (reorderDeploy [RChange.modification ⟨[MKey.numK 11]⟩
        ⟨[MKey.strK "22", MKey.strK "33"]⟩]).requests = [] :=
  ⟨by decide, claim6_invalid_member_identifier ⟨[MKey.numK 11]⟩
    ⟨[MKey.strK "22", MKey.strK "33"]⟩ (by decide)⟩

/-- Claim C8: on fetch, with at least one member record the reorder filter
appends exactly two elements, the synthetic order type (hidden core annotations
entry present exactly when the configuration hides types) and one synthetic
order instance referencing the members sorted by position with ties broken by
title; with no member records nothing is created. -/
theorem claim8_reorder_onfetch (hideTypes : Bool) (elements : List ZElement) :
    (automationInsts elements = [] → reorderOnFetch hideTypes elements = elements)
    ∧ (automationInsts elements ≠ [] →
        ∃ sorted : List Automation,
          List.Perm sorted (automationInsts elements)
          ∧ List.Sorted autLE sorted
          ∧ reorderOnFetch hideTypes elements
              = elements ++
                [ZElement.orderType (if hideTypes then some true else none),
                 ZElement.orderInst (sorted.map Automation.name)]) := by
  constructor
  · intro h
    simp [reorderOnFetch, h]
  · intro h
    refine ⟨List.insertionSort autLE (automationInsts elements),
      List.perm_insertionSort autLE (automationInsts elements),
      List.sorted_insertionSort autLE (automationInsts elements), ?_⟩
    have hne : (automationInsts elements).isEmpty = false := by
      cases hA : automationInsts elements with
      | nil => exact absurd hA h
      | cons a rest => rfl
    simp [reorderOnFetch, hne]

/-- Concrete element list for the claim C8 witness, mirroring the fixture of the
filter test: one member at position 1 and two members tied at position 2 with
titles ordering them. -/
def zdemoEls : List ZElement :=
  [ZElement.automationType,
   ZElement.automationInst ⟨"inst1", 11, 1, "inst2"⟩,
   ZElement.automationInst ⟨"inst2", 22, 2, "inst1"⟩,
   ZElement.automationInst ⟨"inst3", 22, 2, "aaa"⟩]

/-- Witness for claim C8: the fixture element list with hiding enabled. -/
theorem claim8_witness :
    automationInsts zdemoEls ≠ []
    ∧ ∃ sorted : List Automation,
        List.Perm sorted (automationInsts zdemoEls)
        ∧ List.Sorted autLE sorted
        ∧ reorderOnFetch true zdemoEls
            = zdemoEls ++
              [ZElement.orderType (if true then some true else none),
               ZElement.orderInst (sorted.map Automation.name)] :=
  ⟨by decide, (claim8_reorder_onfetch true zdemoEls).2 (by decide)⟩

/-- The action of a change given to the jira workflow deploy filter. -/
inductive CAction where
  | add : CAction
  | modify : CAction
  | remove : CAction
  deriving DecidableEq, Repr

/-- A change as the workflow deploy filter inspects it: whether it is an
instance change, its action, and the type name of its element. -/
structure JChange where
  isInstance : Bool
  action : CAction
  typeName : String
  deriving DecidableEq, Repr

/-- The WORKFLOW_TYPE_NAME constant. Its concrete value is defined in the
constants module, outside this corpus; only its identity matters since both the
predicate and the change data use the same constant. -/
def WORKFLOW_TYPE_NAME : String := "Workflow"

/-- The applicability predicate of the filter deploy hook: an instance addition
change on the workflow type. -/
def isRelevantWorkflowChange (c : JChange) : Bool :=
  c.isInstance && (c.action == CAction.add) && (c.typeName == WORKFLOW_TYPE_NAME)

/-- The deployChanges result: applied changes and errored changes. -/
structure WfDeployResult where
  appliedChanges : List JChange
  errors : List JChange
  deriving DecidableEq, Repr

/-- The filter deploy hook result: leftovers plus the deploy result. -/
structure WfFilterResult where
  leftoverChanges : List JChange
  deployResult : WfDeployResult
  deriving DecidableEq, Repr

/-- Modelled from the spec: deployChanges (standard_deployment module, outside
this corpus) applies the deploy action to each given change independently and
accumulates per-change successes and failures together; the outcome of one
change is modelled by the predicate ok. -/
def deployChanges (ok : JChange → Bool) (changes : List JChange) : WfDeployResult :=
  ⟨changes.filter ok, changes.filter (fun c => !(ok c))⟩

/-- The filter deploy hook: partition the input by the applicability predicate,
deploy the relevant changes (the source refilters them by isInstanceChange and
isAdditionChange, which the predicate already guarantees), and pass the rest
through as leftovers. -/
def workflowFilterDeploy (ok : JChange → Bool) (changes : List JChange) : WfFilterResult :=
  let parts := changes.partition (fun c => isRelevantWorkflowChange c)
  let relevantChanges := parts.1
  let leftoverChanges := parts.2
  ⟨leftoverChanges,
    deployChanges ok
      ((relevantChanges.filter (fun c => c.isInstance)).filter
        (fun c => c.action == CAction.add))⟩

/-- Helper: the refiltering of the relevant changes is the identity. -/
theorem relevant_refilter (changes : List JChange) :
    ((changes.filter (fun c => isRelevantWorkflowChange c)).filter
        (fun c => c.isInstance)).filter (fun c => c.action == CAction.add)
      = changes.filter (fun c => isRelevantWorkflowChange c) := by
  have h1 : (changes.filter (fun c => isRelevantWorkflowChange c)).filter
      (fun c => c.isInstance) = changes.filter (fun c => isRelevantWorkflowChange c) := by
    rw [List.filter_eq_self]
    intro c hc
    have := List.of_mem_filter hc
    simp only [isRelevantWorkflowChange, Bool.and_eq_true] at this
    exact this.1.1
  rw [h1, List.filter_eq_self]
  intro c hc
  have := List.of_mem_filter hc
  simp only [isRelevantWorkflowChange, Bool.and_eq_true] at this
  exact this.1.2

/-- Claim C7: every input change lands in exactly one of the applied, leftover,
or errored buckets: the three bucket sizes add up to the input size, their
concatenation is a permutation of the input, and the leftovers are exactly the
changes failing the applicability predicate, passed through unchanged. -/
theorem claim7_partition_completeness (ok : JChange → Bool) (changes : List JChange) :
    (workflowFilterDeploy ok changes).deployResult.appliedChanges.length
        + (workflowFilterDeploy ok changes).leftoverChanges.length
        + (workflowFilterDeploy ok changes).deployResult.errors.length
      = changes.length
    ∧ List.Perm
        ((workflowFilterDeploy ok changes).deployResult.appliedChanges
          ++ (workflowFilterDeploy ok changes).leftoverChanges
          ++ (workflowFilterDeploy ok changes).deployResult.errors)
        changes
    ∧ (workflowFilterDeploy ok changes).leftoverChanges
        = changes.filter (fun c => !(isRelevantWorkflowChange c)) := by
  have hres : workflowFilterDeploy ok changes
      = ⟨changes.filter (fun c => !(isRelevantWorkflowChange c)),
         ⟨(changes.filter (fun c => isRelevantWorkflowChange c)).filter ok,
          (changes.filter (fun c => isRelevantWorkflowChange c)).filter
            (fun c => !(ok c))⟩⟩ := by
    show (⟨(changes.partition (fun c => isRelevantWorkflowChange c)).2,
      deployChanges ok
        ((((changes.partition (fun c => isRelevantWorkflowChange c)).1).filter
            (fun c => c.isInstance)).filter
          (fun c => c.action == CAction.add))⟩ : WfFilterResult) = _
    rw [List.partition_eq_filter_filter]
    rw [relevant_refilter]
    rfl
  rw [hres]
  dsimp only
  have hperm1 : List.Perm
      ((changes.filter (fun c => isRelevantWorkflowChange c)).filter ok
        ++ (changes.filter (fun c => isRelevantWorkflowChange c)).filter (fun c => !(ok c)))
      (changes.filter (fun c => isRelevantWorkflowChange c)) :=
    List.filter_append_perm ok (changes.filter (fun c => isRelevantWorkflowChange c))
  have hperm2 : List.Perm
      (changes.filter (fun c => isRelevantWorkflowChange c)
        ++ changes.filter (fun c => !(isRelevantWorkflowChange c)))
      changes :=
    List.filter_append_perm (fun c => isRelevantWorkflowChange c) changes
  have hperm : List.Perm
      ((changes.filter (fun c => isRelevantWorkflowChange c)).filter ok
        ++ changes.filter (fun c => !(isRelevantWorkflowChange c))
        ++ (changes.filter (fun c => isRelevantWorkflowChange c)).filter (fun c => !(ok c)))
      changes := by
    have e1 : (changes.filter (fun c => isRelevantWorkflowChange c)).filter ok
        ++ changes.filter (fun c => !(isRelevantWorkflowChange c))
        ++ (changes.filter (fun c => isRelevantWorkflowChange c)).filter (fun c => !(ok c))
      = (changes.filter (fun c => isRelevantWorkflowChange c)).filter ok
        ++ (changes.filter (fun c => !(isRelevantWorkflowChange c))
          ++ (changes.filter (fun c => isRelevantWorkflowChange c)).filter
              (fun c => !(ok c))) := List.append_assoc _ _ _
    rw [e1]
    have p1 : List.Perm
        ((changes.filter (fun c => isRelevantWorkflowChange c)).filter ok
          ++ (changes.filter (fun c => !(isRelevantWorkflowChange c))
            ++ (changes.filter (fun c => isRelevantWorkflowChange c)).filter
                (fun c => !(ok c))))
        ((changes.filter (fun c => isRelevantWorkflowChange c)).filter ok
          ++ ((changes.filter (fun c => isRelevantWorkflowChange c)).filter (fun c => !(ok c))
            ++ changes.filter (fun c => !(isRelevantWorkflowChange c)))) :=
      List.Perm.append_left _ List.perm_append_comm
    refine p1.trans ?_
    have e2 : (changes.filter (fun c => isRelevantWorkflowChange c)).filter ok
        ++ ((changes.filter (fun c => isRelevantWorkflowChange c)).filter (fun c => !(ok c))
          ++ changes.filter (fun c => !(isRelevantWorkflowChange c)))
      = ((changes.filter (fun c => isRelevantWorkflowChange c)).filter ok
          ++ (changes.filter (fun c => isRelevantWorkflowChange c)).filter (fun c => !(ok c)))
        ++ changes.filter (fun c => !(isRelevantWorkflowChange c)) :=
      (List.append_assoc _ _ _).symm
    rw [e2]
    exact (List.Perm.append_right _ hperm1).trans hperm2
  refine ⟨?_, hperm, rfl⟩
  have hlen := hperm.length_eq
  simp only [List.length_append] at hlen
  omega

/-- A transition of a workflow, kept opaque: only its identity matters here. -/
structure Transition where
  name : String
  deriving DecidableEq, Repr

/-- A workflow value of the service response. Modelled from the spec in one
point: workflowSchema (the types module, outside this corpus) is modelled as a
stored conformance flag, and the optionally present transitions array as an
optional list. -/
structure WorkflowVal where
  conformsToSchema : Bool
  transitions : Option (List Transition)
  deriving DecidableEq, Repr

/-- The body of a workflow search response: either a value the top-level object
check of the validator rejects, or an object with an optionally present values
array (unknown extra keys are irrelevant and omitted). -/
inductive ResponseData where
  | nonConforming : ResponseData
  | obj : Option (List WorkflowVal) → ResponseData
  deriving DecidableEq, Repr

/-- isValidTransitionResponse from the filter source: the response must be an
object whose values key, when present, is an array of exactly one element
matching the workflow schema; the values key itself is optional, as object keys
of the validation schema are. -/
def isValidTransitionResponse : ResponseData → Bool
  | ResponseData.nonConforming => false
  | ResponseData.obj none => true
  | ResponseData.obj (some vs) => vs.length == 1 && vs.all (fun w => w.conformsToSchema)

/-- getTransitionsFromService from the filter source, given the already fetched
response body: an invalid response yields the empty transition list plus one
warning log entry; a valid response yields values[0].transitions ?? []. A valid
response without a values array makes values[0] undefined and reading its
transitions throw, modelled as the error case. The result pairs the returned
transitions with the number of warning log entries emitted. -/
def getTransitionsFromService (d : ResponseData) :
    Except String (List Transition × Nat) :=
  if isValidTransitionResponse d then
    match d with
    | ResponseData.obj (some (w :: _)) => Except.ok (w.transitions.getD [], 0)
    | _ => Except.error "TypeError: reading transitions of undefined"
  else Except.ok ([], 1)

/-- Claim C9: a response body failing schema validation yields an empty result
with one warning-severity log entry instead of propagating an exception, and a
response holding exactly one well-formed workflow value yields that workflow's
transitions. -/
theorem claim9_malformed_response (d : ResponseData) (w : WorkflowVal) :
    (isValidTransitionResponse d = false →
      getTransitionsFromService d = Except.ok ([], 1))
    ∧ (w.conformsToSchema = true →
      getTransitionsFromService (ResponseData.obj (some [w]))
        = Except.ok (w.transitions.getD [], 0)) := by
  constructor
  · intro h
    simp [getTransitionsFromService, h]
  · intro h
    have hv : isValidTransitionResponse (ResponseData.obj (some [w])) = true := by
      simp [isValidTransitionResponse, h]
    simp [getTransitionsFromService, hv]

/-- Witness for claim C9: a rejected response body (an empty values array)
yields empty transitions and one warning, and a response with one conforming
workflow carrying two transitions yields those transitions. -/
theorem claim9_witness :
    getTransitionsFromService (ResponseData.obj (some [])) = Except.ok ([], 1)
    ∧ getTransitionsFromService
        (ResponseData.obj (some [⟨true, some [⟨"t1"⟩, ⟨"t2"⟩]⟩]))
      = Except.ok ([⟨"t1"⟩, ⟨"t2"⟩], 0) :=
  ⟨(claim9_malformed_response (ResponseData.obj (some []))
      ⟨true, some [⟨"t1"⟩, ⟨"t2"⟩]⟩).1 (by decide),
   (claim9_malformed_response (ResponseData.obj (some []))
      ⟨true, some [⟨"t1"⟩, ⟨"t2"⟩]⟩).2 rfl⟩
